import Mathlib

/-!
Shallow embedding of the `diffuse-lighting` ray tracer (src/index.js).
JavaScript numbers are modelled as real numbers; the epsilon constant
`0.001` and all arithmetic are carried over literally from the source.
Loops with early exit become structural recursion; `null` becomes `Option`.
-/

namespace Diffuse

/-- 3-component vector, from `class Vector3` (src/index.js:1-48). -/
structure Vector3 where
  x : ℝ
  y : ℝ
  z : ℝ

def Vector3.add (a b : Vector3) : Vector3 :=
  ⟨a.x + b.x, a.y + b.y, a.z + b.z⟩

def Vector3.subtract (a b : Vector3) : Vector3 :=
  ⟨a.x - b.x, a.y - b.y, a.z - b.z⟩

def Vector3.multiply (a : Vector3) (scalar : ℝ) : Vector3 :=
  ⟨a.x * scalar, a.y * scalar, a.z * scalar⟩

def Vector3.dot (a b : Vector3) : ℝ :=
  a.x * b.x + a.y * b.y + a.z * b.z

def Vector3.cross (a b : Vector3) : Vector3 :=
  ⟨a.y * b.z - a.z * b.y, a.z * b.x - a.x * b.z, a.x * b.y - a.y * b.x⟩

noncomputable def Vector3.length (a : Vector3) : ℝ :=
  Real.sqrt (a.x * a.x + a.y * a.y + a.z * a.z)

/-- `normalize` (src/index.js:36-40): the zero-length case returns the zero
vector instead of dividing by zero. -/
noncomputable def Vector3.normalize (a : Vector3) : Vector3 :=
  if a.length = 0 then ⟨0, 0, 0⟩
  else ⟨a.x / a.length, a.y / a.length, a.z / a.length⟩

noncomputable def Vector3.distanceTo (a v : Vector3) : ℝ :=
  Real.sqrt ((a.x - v.x) * (a.x - v.x) + (a.y - v.y) * (a.y - v.y) +
    (a.z - v.z) * (a.z - v.z))

/-- Ray record; the constructor `mkRay` normalizes the direction
(src/index.js:51-60). -/
structure Ray where
  origin : Vector3
  direction : Vector3

noncomputable def mkRay (origin direction : Vector3) : Ray :=
  ⟨origin, direction.normalize⟩

def Ray.pointAt (r : Ray) (t : ℝ) : Vector3 :=
  r.origin.add (r.direction.multiply t)

/-- Sphere data (src/index.js:81-85). -/
structure Sphere where
  position : Vector3
  radius : ℝ
  color : Vector3

/-- `Sphere.intersect` (src/index.js:87-109), literal translation. -/
noncomputable def Sphere.intersect (s : Sphere) (ray : Ray) : Option ℝ :=
  let oc := ray.origin.subtract s.position
  let a := ray.direction.dot ray.direction
  let b := 2.0 * oc.dot ray.direction
  let c := oc.dot oc - s.radius * s.radius
  let discriminant := b * b - 4 * a * c
  if discriminant < 0 then none
  else
    let t := (-b - Real.sqrt discriminant) / (2.0 * a)
    if t > 0.001 then some t
    else
      let t2 := (-b + Real.sqrt discriminant) / (2.0 * a)
      if t2 > 0.001 then some t2
      else none

/-- `Sphere.normalAt` (src/index.js:111-113). -/
noncomputable def Sphere.normalAt (s : Sphere) (point : Vector3) : Vector3 :=
  (point.subtract s.position).normalize

/-- Plane data (src/index.js:117-121); `mkPlane` normalizes the normal as
the constructor does. -/
structure Plane where
  position : Vector3
  normal : Vector3
  color : Vector3

noncomputable def mkPlane (position normal color : Vector3) : Plane :=
  ⟨position, normal.normalize, color⟩

/-- `Plane.intersect` (src/index.js:123-132), literal translation. -/
noncomputable def Plane.intersect (p : Plane) (ray : Ray) : Option ℝ :=
  let denom := p.normal.dot ray.direction
  if |denom| > 0.001 then
    let t := (p.position.subtract ray.origin).dot p.normal / denom
    if t ≥ 0.001 then some t else none
  else none

def Plane.normalAt (p : Plane) (_point : Vector3) : Vector3 :=
  p.normal

/-- Scene primitives as a tagged variant over the two concrete subclasses
of `SceneObject` (src/index.js:63-137). -/
inductive SceneObject where
  | sphere (s : Sphere)
  | plane (p : Plane)

def SceneObject.color : SceneObject → Vector3
  | .sphere s => s.color
  | .plane p => p.color

noncomputable def SceneObject.intersect : SceneObject → Ray → Option ℝ
  | .sphere s, ray => s.intersect ray
  | .plane p, ray => p.intersect ray

noncomputable def SceneObject.normalAt : SceneObject → Vector3 → Vector3
  | .sphere s, point => s.normalAt point
  | .plane p, point => p.normalAt point

/-- Point light (src/index.js:140-145). -/
structure Light where
  position : Vector3
  intensity : ℝ

/-- Scene state (src/index.js:148-153). -/
structure Scene where
  objects : List SceneObject
  lights : List Light
  backgroundColor : Vector3

/-- Nearest-hit loop of `Scene.trace` (src/index.js:168-178): walk the
object list in order, keeping the accumulator and replacing it only when
`t < closestIntersection` (strict). -/
noncomputable def findClosest : List SceneObject → Ray → Option (ℝ × SceneObject) →
    Option (ℝ × SceneObject)
  | [], _, acc => acc
  | o :: rest, ray, acc =>
    match o.intersect ray, acc with
    | some t, none => findClosest rest ray (some (t, o))
    | some t, some (ct, co) =>
      if t < ct then findClosest rest ray (some (t, o))
      else findClosest rest ray (some (ct, co))
    | none, acc => findClosest rest ray acc

/-- Shadow loop of `Scene.trace` (src/index.js:199-205): break (return
`true`) at the first object whose intersection distance with the shadow
ray is below the light distance. -/
noncomputable def isInShadow : List SceneObject → Ray → ℝ → Bool
  | [], _, _ => false
  | o :: rest, shadowRay, lightDist =>
    match o.intersect shadowRay with
    | some shadowT =>
      if shadowT < lightDist then true else isInShadow rest shadowRay lightDist
    | none => isInShadow rest shadowRay lightDist

/-- Per-light shading loop of `Scene.trace` (src/index.js:192-219): for
each light, add the diffuse term when not in shadow, then always add the
ambient term `color * 0.2`. -/
noncomputable def shadeLights (objs : List SceneObject) (hitObj : SceneObject)
    (point normal : Vector3) : List Light → Vector3 → Vector3
  | [], color => color
  | light :: rest, color =>
    let lightDirection := (light.position.subtract point).normalize
    let shadowRay := mkRay (point.add (normal.multiply 0.001)) lightDirection
    let color1 :=
      if isInShadow objs shadowRay (light.position.distanceTo point) then color
      else
        let diffuse := max 0 (normal.dot lightDirection)
        color.add (hitObj.color.multiply (diffuse * light.intensity))
    let color2 := color1.add (hitObj.color.multiply 0.2)
    shadeLights objs hitObj point normal rest color2

/-- Final per-channel clamp (src/index.js:222-224). -/
def clamp01 (r : ℝ) : ℝ := min 1 (max 0 r)

/-- `Scene.trace` (src/index.js:163-227). -/
noncomputable def Scene.trace (scene : Scene) (ray : Ray) (depth maxDepth : ℕ) :
    Vector3 :=
  if depth ≥ maxDepth then scene.backgroundColor
  else
    match findClosest scene.objects ray none with
    | none => scene.backgroundColor
    | some (closestIntersection, closestObject) =>
      let intersectionPoint := ray.pointAt closestIntersection
      let normal := closestObject.normalAt intersectionPoint
      let color := shadeLights scene.objects closestObject intersectionPoint normal
        scene.lights ⟨0, 0, 0⟩
      ⟨clamp01 color.x, clamp01 color.y, clamp01 color.z⟩

/-- Fixed camera position of `Renderer.render` (src/index.js:242). -/
def cameraPosition : Vector3 := ⟨0, 2, 10⟩

/-- Per-pixel color of `Renderer.render` (src/index.js:248-256): NDC
mapping, one camera ray, one trace at depth 0 / maxDepth 3. -/
noncomputable def pixelColor (scene : Scene) (W H x y : ℕ) : Vector3 :=
  let px := ((x : ℝ) / (W : ℝ)) * 2 - 1
  let py := -((y : ℝ) / (H : ℝ)) * 2 + 1
  let rayDirection := (Vector3.mk px py (-1)).normalize
  let ray := mkRay cameraPosition rayDirection
  scene.trace ray 0 3

/-- The four bytes written for one pixel (src/index.js:259-268):
`floor(channel * 255)` for R, G, B and the constant alpha 255. -/
noncomputable def pixelBytes (scene : Scene) (W H x y : ℕ) : List ℤ :=
  let color := pixelColor scene W H x y
  [⌊color.x * 255⌋, ⌊color.y * 255⌋, ⌊color.z * 255⌋, 255]

/-- `Uint8ClampedArray` store conversion: an integer assigned into
`imageData.data` is saturated to `[0, 255]` (src/index.js:265-268). -/
def byteClamp (v : ℤ) : ℤ := min 255 (max 0 v)

/-- Write a run of values into the buffer at consecutive indices,
modelling the four `imageData.data[index + k] = v` stores
(src/index.js:265-268); each store saturates to `[0, 255]` because
`imageData.data` is a `Uint8ClampedArray`. -/
def writeBytes : List ℤ → ℕ → List ℤ → List ℤ
  | buf, _, [] => buf
  | buf, i, v :: vs => writeBytes (buf.set i (byteClamp v)) (i + 1) vs

/-- Inner x-loop of `Renderer.render` (src/index.js:246-269): write the
pixels `x, x+1, ...` (`n` of them) of row `y` at offsets `(y*W + x)*4`. -/
noncomputable def renderRow (scene : Scene) (W H y : ℕ) : ℕ → ℕ → List ℤ → List ℤ
  | _, 0, buf => buf
  | x, n + 1, buf =>
    renderRow scene W H y (x + 1) n
      (writeBytes buf ((y * W + x) * 4) (pixelBytes scene W H x y))

/-- Outer y-loop of `Renderer.render` (src/index.js:245-270). -/
noncomputable def renderRows (scene : Scene) (W H : ℕ) : ℕ → ℕ → List ℤ → List ℤ
  | _, 0, buf => buf
  | y, n + 1, buf => renderRows scene W H (y + 1) n (renderRow scene W H y 0 W buf)

/-- `Renderer.render` (src/index.js:241-274): run both loops over the
persistent `imageData` buffer. -/
noncomputable def render (scene : Scene) (W H : ℕ) (buf : List ℤ) : List ℤ :=
  renderRows scene W H 0 H buf

/-- The buffer `render` produces, written as a flat list: row-major pixel
order, four bytes per pixel, each byte saturated by the
`Uint8ClampedArray` store. -/
noncomputable def renderFlat (scene : Scene) (W H : ℕ) : List ℤ :=
  (List.range H).flatMap fun y =>
    (List.range W).flatMap fun x => (pixelBytes scene W H x y).map byteClamp

/-! ## Theorems -/

/-- C5: `Plane.intersect` returns no intersection when
`|normal·direction| ≤ 0.001` — in particular an exactly parallel ray
(`normal·direction = 0`) never intersects, regardless of origin — and
otherwise returns `t = (position − origin)·normal / denom` exactly when
`t ≥ 0.001`, and no intersection when `t < 0.001`. -/
theorem C5_plane_intersect_policy (p : Plane) (ray : Ray) :
    (|p.normal.dot ray.direction| ≤ 0.001 → p.intersect ray = none) ∧
    (p.normal.dot ray.direction = 0 → p.intersect ray = none) ∧
    (0.001 < |p.normal.dot ray.direction| →
      p.intersect ray =
        if (p.position.subtract ray.origin).dot p.normal /
            p.normal.dot ray.direction ≥ 0.001
        then some ((p.position.subtract ray.origin).dot p.normal /
          p.normal.dot ray.direction)
        else none) := by
  refine ⟨fun h => ?_, fun h => ?_, fun h => ?_⟩
  · simp only [Plane.intersect]
    rw [if_neg (not_lt.mpr h)]
  · have h' : |p.normal.dot ray.direction| ≤ 0.001 := by
      rw [h, abs_zero]; norm_num
    simp only [Plane.intersect]
    rw [if_neg (not_lt.mpr h')]
  · simp only [Plane.intersect]
    rw [if_pos h]

/-- Witness for C5: the horizontal ray `(5,7,9) + t·(1,0,0)` is exactly
parallel to the plane through the origin with normal `(0,1,0)` and is
reported as a miss. -/
theorem C5_plane_intersect_policy_witness :
    (Plane.mk ⟨0, 0, 0⟩ ⟨0, 1, 0⟩ ⟨0.7, 0.7, 0.7⟩).normal.dot
      (Ray.mk ⟨5, 7, 9⟩ ⟨1, 0, 0⟩).direction = 0 ∧
    (Plane.mk ⟨0, 0, 0⟩ ⟨0, 1, 0⟩ ⟨0.7, 0.7, 0.7⟩).intersect
      (Ray.mk ⟨5, 7, 9⟩ ⟨1, 0, 0⟩) = none := by
  have h : (Plane.mk ⟨0, 0, 0⟩ ⟨0, 1, 0⟩ ⟨0.7, 0.7, 0.7⟩).normal.dot
      (Ray.mk ⟨5, 7, 9⟩ ⟨1, 0, 0⟩).direction = 0 := by
    simp [Vector3.dot]
  exact ⟨h, (C5_plane_intersect_policy _ _).2.1 h⟩

/-- C6: `Vector3.normalize` maps a vector of length exactly zero to the
zero vector `(0,0,0)`, and any vector of nonzero length to a vector of
length exactly `1`. -/
theorem C6_normalize_zero_and_unit (v : Vector3) :
    (v.length = 0 → v.normalize = ⟨0, 0, 0⟩) ∧
    (v.length ≠ 0 → v.normalize.length = 1) := by
  refine ⟨fun h => ?_, fun h => ?_⟩
  · simp only [Vector3.normalize, if_pos h]
  · have hs : 0 ≤ v.x * v.x + v.y * v.y + v.z * v.z :=
      add_nonneg (add_nonneg (mul_self_nonneg _) (mul_self_nonneg _))
        (mul_self_nonneg _)
    have hmul : v.length * v.length = v.x * v.x + v.y * v.y + v.z * v.z :=
      Real.mul_self_sqrt hs
    have hL : v.length ≠ 0 := h
    simp only [Vector3.normalize, if_neg h]
    simp only [Vector3.length] at hL hmul ⊢
    have hs0 : v.x * v.x + v.y * v.y + v.z * v.z ≠ 0 := fun h0 =>
      hL (by rw [h0, Real.sqrt_zero])
    have key : v.x / Real.sqrt (v.x * v.x + v.y * v.y + v.z * v.z) *
        (v.x / Real.sqrt (v.x * v.x + v.y * v.y + v.z * v.z)) +
        v.y / Real.sqrt (v.x * v.x + v.y * v.y + v.z * v.z) *
        (v.y / Real.sqrt (v.x * v.x + v.y * v.y + v.z * v.z)) +
        v.z / Real.sqrt (v.x * v.x + v.y * v.y + v.z * v.z) *
        (v.z / Real.sqrt (v.x * v.x + v.y * v.y + v.z * v.z)) =
        (v.x * v.x + v.y * v.y + v.z * v.z) /
        (Real.sqrt (v.x * v.x + v.y * v.y + v.z * v.z) *
          Real.sqrt (v.x * v.x + v.y * v.y + v.z * v.z)) := by
      ring
    rw [key, hmul, div_self hs0, Real.sqrt_one]

/-- Witness for C6: the vector `(3,4,0)` has length `5 ≠ 0` and its
normalization has length `1`. -/
theorem C6_normalize_zero_and_unit_witness :
    (Vector3.mk 3 4 0).length ≠ 0 ∧
    (Vector3.mk 3 4 0).normalize.length = 1 := by
  have h : (Vector3.mk 3 4 0).length ≠ 0 := by
    simp only [Vector3.length]
    rw [show (3 : ℝ) * 3 + 4 * 4 + 0 * 0 = 5 ^ 2 by norm_num,
      Real.sqrt_sq (by norm_num : (0 : ℝ) ≤ 5)]
    norm_num
  exact ⟨h, (C6_normalize_zero_and_unit _).2 h⟩

/-- Running the nearest-hit loop with a non-empty accumulator is the same
as running it with an empty accumulator and then comparing with the
accumulator under the strict `<` of the source loop. -/
theorem findClosest_acc (objs : List SceneObject) (ray : Ray) :
    ∀ ct co,
      (findClosest objs ray none = none ∧
        findClosest objs ray (some (ct, co)) = some (ct, co)) ∨
      (∃ t o, findClosest objs ray none = some (t, o) ∧
        findClosest objs ray (some (ct, co)) =
          if t < ct then some (t, o) else some (ct, co)) := by
  induction objs with
  | nil => intro ct co; exact Or.inl ⟨rfl, rfl⟩
  | cons o1 rest ih =>
    intro ct co
    cases h1 : o1.intersect ray with
    | none =>
      simp only [findClosest, h1]
      exact ih ct co
    | some t1 =>
      simp only [findClosest, h1]
      rcases ih t1 o1 with ⟨hn, he⟩ | ⟨t, o, hn, he⟩
      · -- the rest of the list produces no hit at all
        by_cases hlt : t1 < ct
        · rw [if_pos hlt]
          refine Or.inr ⟨t1, o1, he, ?_⟩
          rw [he, if_pos hlt]
        · rw [if_neg hlt]
          refine Or.inr ⟨t1, o1, he, ?_⟩
          rcases ih ct co with ⟨_, he2⟩ | ⟨t, o, hn2, _⟩
          · rw [he2, if_neg hlt]
          · rw [hn2] at hn; exact absurd hn (by simp)
      · -- the rest of the list, seeded with (t1, o1), yields some hit
        by_cases hlt : t1 < ct
        · rw [if_pos hlt]
          by_cases hlt2 : t < t1
          · exact Or.inr ⟨t, o, by rw [he, if_pos hlt2],
              by rw [he, if_pos hlt2, if_pos (hlt2.trans hlt)]⟩
          · exact Or.inr ⟨t1, o1, by rw [he, if_neg hlt2],
              by rw [he, if_neg hlt2, if_pos hlt]⟩
        · rw [if_neg hlt]
          rcases ih ct co with ⟨hn2, _⟩ | ⟨t', o', hn2, he2⟩
          · rw [hn2] at hn; exact absurd hn (by simp)
          · rw [hn2] at hn
            injection hn with hn
            have hnt : t' = t := congrArg Prod.fst hn
            have hno : o' = o := congrArg Prod.snd hn
            subst hnt; subst hno
            by_cases hlt2 : t' < t1
            · exact Or.inr ⟨t', o', by rw [he, if_pos hlt2], he2⟩
            · refine Or.inr ⟨t1, o1, by rw [he, if_neg hlt2], ?_⟩
              have h3 : ¬ t' < ct := fun hc =>
                hlt2 (hc.trans_le (not_lt.mp hlt))
              rw [he2, if_neg h3, if_neg hlt]

/-- The nearest-hit loop reports a miss exactly when every object misses. -/
theorem findClosest_none_iff (objs : List SceneObject) (ray : Ray) :
    findClosest objs ray none = none ↔
      ∀ o ∈ objs, o.intersect ray = none := by
  induction objs with
  | nil => simp [findClosest]
  | cons o1 rest ih =>
    cases h1 : o1.intersect ray with
    | none =>
      simp only [findClosest, h1]
      rw [ih]
      constructor
      · intro h o ho
        rcases List.mem_cons.mp ho with rfl | ho
        · exact h1
        · exact h o ho
      · intro h o ho
        exact h o (List.mem_cons_of_mem _ ho)
    | some t1 =>
      simp only [findClosest, h1]
      constructor
      · intro h
        rcases findClosest_acc rest ray t1 o1 with ⟨_, he⟩ | ⟨t, o, _, he⟩
        · rw [he] at h; exact absurd h (by simp)
        · rw [he] at h
          by_cases hlt : t < t1 <;> simp [hlt] at h
      · intro h
        exact absurd (h o1 (List.mem_cons_self _ _)) (by simp [h1])

/-- The distance reported by the nearest-hit loop is a lower bound on
every distance any object in the list reports. -/
theorem findClosest_min (objs : List SceneObject) (ray : Ray) :
    ∀ t o, findClosest objs ray none = some (t, o) →
      ∀ o' ∈ objs, ∀ t', o'.intersect ray = some t' → t ≤ t' := by
  induction objs with
  | nil => intro t o h; exact absurd h (by simp [findClosest])
  | cons o1 rest ih =>
    intro t o h o' ho' t' ht'
    cases h1 : o1.intersect ray with
    | none =>
      simp only [findClosest, h1] at h
      rcases List.mem_cons.mp ho' with rfl | ho'
      · rw [h1] at ht'; exact absurd ht' (by simp)
      · exact ih t o h o' ho' t' ht'
    | some t1 =>
      simp only [findClosest, h1] at h
      rcases findClosest_acc rest ray t1 o1 with ⟨hn, he⟩ | ⟨tr, or, hn, he⟩
      · rw [he] at h
        injection h with h
        have hteq : t = t1 := (congrArg Prod.fst h).symm
        rcases List.mem_cons.mp ho' with rfl | ho'
        · rw [h1] at ht'
          injection ht' with ht'
          rw [hteq, ht']
        · rw [(findClosest_none_iff rest ray).mp hn o' ho'] at ht'
          exact absurd ht' (by simp)
      · rw [he] at h
        by_cases hlt : tr < t1
        · rw [if_pos hlt] at h
          injection h with h
          have hteq : t = tr := (congrArg Prod.fst h).symm
          rcases List.mem_cons.mp ho' with rfl | ho'
          · rw [h1] at ht'
            injection ht' with ht'
            rw [hteq, ← ht']
            exact le_of_lt hlt
          · rw [hteq]
            exact ih tr or hn o' ho' t' ht'
        · rw [if_neg hlt] at h
          injection h with h
          have hteq : t = t1 := (congrArg Prod.fst h).symm
          rcases List.mem_cons.mp ho' with rfl | ho'
          · rw [h1] at ht'
            injection ht' with ht'
            rw [hteq, ht']
          · have htr : tr ≤ t' := ih tr or hn o' ho' t' ht'
            rw [hteq]
            exact le_trans (not_lt.mp hlt) htr

/-- The object reported by the nearest-hit loop is the FIRST object in
list order attaining the minimal distance: every earlier object that hits
at all hits strictly farther away. -/
theorem findClosest_first (objs : List SceneObject) (ray : Ray) :
    ∀ t o, findClosest objs ray none = some (t, o) →
      ∃ i, objs[i]? = some o ∧ o.intersect ray = some t ∧
        ∀ (j : ℕ) (o' : SceneObject) (t' : ℝ), j < i → objs[j]? = some o' →
          o'.intersect ray = some t' → t < t' := by
  induction objs with
  | nil => intro t o h; exact absurd h (by simp [findClosest])
  | cons o1 rest ih =>
    intro t o h
    cases h1 : o1.intersect ray with
    | none =>
      simp only [findClosest, h1] at h
      obtain ⟨i, hio, hit, hpre⟩ := ih t o h
      refine ⟨i + 1, by simpa using hio, hit, ?_⟩
      intro j o' t' hj hjo' hint
      cases j with
      | zero =>
        simp only [List.getElem?_cons_zero] at hjo'
        injection hjo' with hjo'
        rw [← hjo', h1] at hint
        exact absurd hint (by simp)
      | succ k =>
        simp only [List.getElem?_cons_succ] at hjo'
        exact hpre k o' t' (Nat.succ_lt_succ_iff.mp hj) hjo' hint
    | some t1 =>
      simp only [findClosest, h1] at h
      rcases findClosest_acc rest ray t1 o1 with ⟨hn, he⟩ | ⟨tr, or, hn, he⟩
      · rw [he] at h
        injection h with h
        have hteq : t = t1 := (congrArg Prod.fst h).symm
        have hoeq : o = o1 := (congrArg Prod.snd h).symm
        exact ⟨0, by rw [hoeq]; simp, by rw [hoeq, h1, hteq], fun j o' t' hj _ _ => absurd hj (Nat.not_lt_zero j)⟩
      · rw [he] at h
        by_cases hlt : tr < t1
        · rw [if_pos hlt] at h
          injection h with h
          have hteq : t = tr := (congrArg Prod.fst h).symm
          have hoeq : o = or := (congrArg Prod.snd h).symm
          subst hteq; subst hoeq
          obtain ⟨i, hio, hit, hpre⟩ := ih t o hn
          refine ⟨i + 1, by simpa using hio, hit, ?_⟩
          intro j o' t' hj hjo' hint
          cases j with
          | zero =>
            simp only [List.getElem?_cons_zero] at hjo'
            injection hjo' with hjo'
            rw [← hjo', h1] at hint
            injection hint with hint
            rw [← hint]
            exact hlt
          | succ k =>
            simp only [List.getElem?_cons_succ] at hjo'
            exact hpre k o' t' (Nat.succ_lt_succ_iff.mp hj) hjo' hint
        · rw [if_neg hlt] at h
          injection h with h
          have hteq : t = t1 := (congrArg Prod.fst h).symm
          have hoeq : o = o1 := (congrArg Prod.snd h).symm
          exact ⟨0, by rw [hoeq]; simp, by rw [hoeq, h1, hteq], fun j o' t' hj _ _ => absurd hj (Nat.not_lt_zero j)⟩

/-- C2: `Scene.trace` selects the hit by scanning the object list in
insertion order under a strict `<` minimum: the reported object is the
first in list order attaining the minimal intersection distance, so an
earlier object is never replaced by a later object at an equal distance;
and when no object returns a hit, `trace` returns the scene's background
color. -/
theorem C2_trace_nearest_first_wins (scene : Scene) (ray : Ray)
    (depth maxDepth : ℕ) :
    ((∀ o ∈ scene.objects, o.intersect ray = none) →
      scene.trace ray depth maxDepth = scene.backgroundColor) ∧
    (∀ (t : ℝ) (o : SceneObject),
      findClosest scene.objects ray none = some (t, o) →
      ∃ i, scene.objects[i]? = some o ∧ o.intersect ray = some t ∧
        (∀ o' ∈ scene.objects, ∀ (t' : ℝ),
          o'.intersect ray = some t' → t ≤ t') ∧
        (∀ (j : ℕ) (o' : SceneObject) (t' : ℝ), j < i →
          scene.objects[j]? = some o' →
          o'.intersect ray = some t' → t < t')) := by
  constructor
  · intro h
    simp only [Scene.trace]
    by_cases hd : depth ≥ maxDepth
    · rw [if_pos hd]
    · rw [if_neg hd, (findClosest_none_iff _ _).mpr h]
  · intro t o h
    obtain ⟨i, hio, hit, hpre⟩ := findClosest_first scene.objects ray t o h
    exact ⟨i, hio, hit, findClosest_min scene.objects ray t o h, hpre⟩

/-- Witness for C2: on an empty object list every object (vacuously)
misses and `trace` returns the background color unchanged. -/
theorem C2_trace_nearest_first_wins_witness :
    (∀ o ∈ (Scene.mk [] [] ⟨0.1, 0.1, 0.2⟩).objects,
      o.intersect (Ray.mk ⟨0, 0, 0⟩ ⟨0, 0, 1⟩) = none) ∧
    (Scene.mk [] [] ⟨0.1, 0.1, 0.2⟩).trace (Ray.mk ⟨0, 0, 0⟩ ⟨0, 0, 1⟩) 0 3 =
      ⟨0.1, 0.1, 0.2⟩ := by
  have h : ∀ o ∈ (Scene.mk [] [] ⟨0.1, 0.1, 0.2⟩).objects,
      o.intersect (Ray.mk ⟨0, 0, 0⟩ ⟨0, 0, 1⟩) = none := by
    intro o ho
    exact absurd ho (List.not_mem_nil o)
  exact ⟨h, (C2_trace_nearest_first_wins _ _ 0 3).1 h⟩

/-- C10: whenever `Scene.trace` does not shade a hit — because the depth
guard fires (`depth ≥ maxDepth`) or because no object intersects the ray
— it returns the stored `backgroundColor` exactly, with no clamping
applied (the clamp runs only on the hit path). -/
theorem C10_trace_background_unclamped (scene : Scene) (ray : Ray)
    (depth maxDepth : ℕ)
    (h : maxDepth ≤ depth ∨ ∀ o ∈ scene.objects, o.intersect ray = none) :
    scene.trace ray depth maxDepth = scene.backgroundColor := by
  simp only [Scene.trace]
  rcases h with h | h
  · rw [if_pos h]
  · by_cases hd : depth ≥ maxDepth
    · rw [if_pos hd]
    · rw [if_neg hd, (findClosest_none_iff _ _).mpr h]

/-- Witness for C10: an empty scene whose background color `(2,−1,3)` lies
outside `[0,1]` in every channel is returned out of range, unclamped. -/
theorem C10_trace_background_unclamped_witness :
    ((3 : ℕ) ≤ 0 ∨ ∀ o ∈ (Scene.mk [] [] ⟨2, -1, 3⟩).objects,
      o.intersect (Ray.mk ⟨0, 0, 0⟩ ⟨0, 0, 1⟩) = none) ∧
    (Scene.mk [] [] ⟨2, -1, 3⟩).trace (Ray.mk ⟨0, 0, 0⟩ ⟨0, 0, 1⟩) 0 3 =
      ⟨2, -1, 3⟩ ∧
    ((1 : ℝ) < 2 ∧ (-1 : ℝ) < 0 ∧ (1 : ℝ) < 3) := by
  have h : (3 : ℕ) ≤ 0 ∨ ∀ o ∈ (Scene.mk [] [] ⟨2, -1, 3⟩).objects,
      o.intersect (Ray.mk ⟨0, 0, 0⟩ ⟨0, 0, 1⟩) = none :=
    Or.inr fun o ho => absurd ho (List.not_mem_nil o)
  exact ⟨h, C10_trace_background_unclamped _ _ 0 3 h, by norm_num⟩

/-- Both quadratic-formula expressions are genuine roots of
`a·t² + b·t + c` once `q` is a square root of the discriminant. -/
theorem quadratic_formula_roots (a b c q : ℝ) (ha : a ≠ 0)
    (hq : q ^ 2 = b * b - 4 * a * c) :
    a * ((-b - q) / (2.0 * a)) ^ 2 + b * ((-b - q) / (2.0 * a)) + c = 0 ∧
    a * ((-b + q) / (2.0 * a)) ^ 2 + b * ((-b + q) / (2.0 * a)) + c = 0 := by
  have h2 : (2.0 : ℝ) = 2 := by norm_num
  rw [h2]
  constructor
  · have key : a * ((-b - q) / (2 * a)) ^ 2 + b * ((-b - q) / (2 * a)) + c =
        (q ^ 2 - (b * b - 4 * a * c)) / (4 * a) := by
      field_simp
      ring
    rw [key, hq, sub_self, zero_div]
  · have key : a * ((-b + q) / (2 * a)) ^ 2 + b * ((-b + q) / (2 * a)) + c =
        (q ^ 2 - (b * b - 4 * a * c)) / (4 * a) := by
      field_simp
      ring
    rw [key, hq, sub_self, zero_div]

/-- C1: `Sphere.intersect` follows the ordered-root policy: with
`a = direction·direction`, `b = 2·(origin−center)·direction`,
`c = (origin−center)·(origin−center) − radius²`, it returns no
intersection when `b² − 4ac < 0`; otherwise it returns the smaller
quadratic root if that root exceeds `0.001`, else the larger root if it
exceeds `0.001`, else no intersection.  (The two quadratic-formula values
are proved to be actual ordered roots of `a·t² + b·t + c`.) -/
theorem C1_sphere_intersect_ordered_roots (s : Sphere) (ray : Ray)
    (a b c disc : ℝ)
    (hA : a = ray.direction.dot ray.direction)
    (hB : b = 2.0 * (ray.origin.subtract s.position).dot ray.direction)
    (hC : c = (ray.origin.subtract s.position).dot
      (ray.origin.subtract s.position) - s.radius * s.radius)
    (hD : disc = b * b - 4 * a * c)
    (ha : 0 < a) :
    (disc < 0 → s.intersect ray = none) ∧
    (0 ≤ disc →
      a * ((-b - Real.sqrt disc) / (2.0 * a)) ^ 2 +
        b * ((-b - Real.sqrt disc) / (2.0 * a)) + c = 0 ∧
      a * ((-b + Real.sqrt disc) / (2.0 * a)) ^ 2 +
        b * ((-b + Real.sqrt disc) / (2.0 * a)) + c = 0 ∧
      (-b - Real.sqrt disc) / (2.0 * a) ≤ (-b + Real.sqrt disc) / (2.0 * a) ∧
      s.intersect ray =
        if (-b - Real.sqrt disc) / (2.0 * a) > 0.001
        then some ((-b - Real.sqrt disc) / (2.0 * a))
        else if (-b + Real.sqrt disc) / (2.0 * a) > 0.001
        then some ((-b + Real.sqrt disc) / (2.0 * a))
        else none) := by
  constructor
  · intro hneg
    simp only [Sphere.intersect]
    rw [← hB, ← hC, ← hA, ← hD, if_pos hneg]
  · intro hdisc
    have h2a : (0 : ℝ) < 2.0 * a := by
      rw [show (2.0 : ℝ) = 2 by norm_num]
      linarith
    have hle : (-b - Real.sqrt disc) / (2.0 * a) ≤
        (-b + Real.sqrt disc) / (2.0 * a) :=
      (div_le_div_iff_of_pos_right h2a).mpr (by linarith [Real.sqrt_nonneg disc])
    have hq : Real.sqrt disc ^ 2 = b * b - 4 * a * c := by
      rw [Real.sq_sqrt hdisc, hD]
    refine ⟨?_, ?_, hle, ?_⟩
    · exact (quadratic_formula_roots a b c _ ha.ne' hq).1
    · exact (quadratic_formula_roots a b c _ ha.ne' hq).2
    · simp only [Sphere.intersect]
      rw [← hB, ← hC, ← hA, ← hD, if_neg (not_lt.mpr hdisc)]

/-- Witness for C1: the ray from `(0,0,3)` along `(0,0,−1)` against the
unit sphere at the origin has `a = 1`, `b = −6`, `c = 8`, discriminant
`4`, and the policy returns the smaller root `2`. -/
theorem C1_sphere_intersect_ordered_roots_witness :
    ((1 : ℝ) = (Ray.mk ⟨0, 0, 3⟩ ⟨0, 0, -1⟩).direction.dot
      (Ray.mk ⟨0, 0, 3⟩ ⟨0, 0, -1⟩).direction) ∧
    ((-6 : ℝ) = 2.0 * ((Ray.mk ⟨0, 0, 3⟩ ⟨0, 0, -1⟩).origin.subtract
      (Sphere.mk ⟨0, 0, 0⟩ 1 ⟨0.8, 0.2, 0.2⟩).position).dot
      (Ray.mk ⟨0, 0, 3⟩ ⟨0, 0, -1⟩).direction) ∧
    ((8 : ℝ) = ((Ray.mk ⟨0, 0, 3⟩ ⟨0, 0, -1⟩).origin.subtract
      (Sphere.mk ⟨0, 0, 0⟩ 1 ⟨0.8, 0.2, 0.2⟩).position).dot
      ((Ray.mk ⟨0, 0, 3⟩ ⟨0, 0, -1⟩).origin.subtract
        (Sphere.mk ⟨0, 0, 0⟩ 1 ⟨0.8, 0.2, 0.2⟩).position) -
      (Sphere.mk ⟨0, 0, 0⟩ 1 ⟨0.8, 0.2, 0.2⟩).radius *
      (Sphere.mk ⟨0, 0, 0⟩ 1 ⟨0.8, 0.2, 0.2⟩).radius) ∧
    ((4 : ℝ) = (-6 : ℝ) * (-6 : ℝ) - 4 * 1 * 8) ∧ ((0 : ℝ) < 1) ∧
    (Sphere.mk ⟨0, 0, 0⟩ 1 ⟨0.8, 0.2, 0.2⟩).intersect
      (Ray.mk ⟨0, 0, 3⟩ ⟨0, 0, -1⟩) = some 2 := by
  have hA : (1 : ℝ) = (Ray.mk ⟨0, 0, 3⟩ ⟨0, 0, -1⟩).direction.dot
      (Ray.mk ⟨0, 0, 3⟩ ⟨0, 0, -1⟩).direction := by
    simp [Vector3.dot]
  have hB : (-6 : ℝ) = 2.0 * ((Ray.mk ⟨0, 0, 3⟩ ⟨0, 0, -1⟩).origin.subtract
      (Sphere.mk ⟨0, 0, 0⟩ 1 ⟨0.8, 0.2, 0.2⟩).position).dot
      (Ray.mk ⟨0, 0, 3⟩ ⟨0, 0, -1⟩).direction := by
    simp [Vector3.subtract, Vector3.dot]
    norm_num
  have hC : (8 : ℝ) = ((Ray.mk ⟨0, 0, 3⟩ ⟨0, 0, -1⟩).origin.subtract
      (Sphere.mk ⟨0, 0, 0⟩ 1 ⟨0.8, 0.2, 0.2⟩).position).dot
      ((Ray.mk ⟨0, 0, 3⟩ ⟨0, 0, -1⟩).origin.subtract
        (Sphere.mk ⟨0, 0, 0⟩ 1 ⟨0.8, 0.2, 0.2⟩).position) -
      (Sphere.mk ⟨0, 0, 0⟩ 1 ⟨0.8, 0.2, 0.2⟩).radius *
      (Sphere.mk ⟨0, 0, 0⟩ 1 ⟨0.8, 0.2, 0.2⟩).radius := by
    simp [Vector3.subtract, Vector3.dot]
    norm_num
  have hD : (4 : ℝ) = (-6 : ℝ) * (-6 : ℝ) - 4 * 1 * 8 := by norm_num
  have ha : (0 : ℝ) < 1 := by norm_num
  have happ := (C1_sphere_intersect_ordered_roots
    (Sphere.mk ⟨0, 0, 0⟩ 1 ⟨0.8, 0.2, 0.2⟩) (Ray.mk ⟨0, 0, 3⟩ ⟨0, 0, -1⟩)
    1 (-6) 8 4 hA hB hC hD ha).2 (by norm_num)
  refine ⟨hA, hB, hC, hD, ha, ?_⟩
  rw [happ.2.2.2,
    show Real.sqrt (4 : ℝ) = 2 by
      rw [show (4 : ℝ) = 2 ^ 2 by norm_num,
        Real.sqrt_sq (by norm_num : (0 : ℝ) ≤ 2)],
    if_pos (by norm_num : (-(-6 : ℝ) - 2) / (2.0 * 1) > 0.001)]
  norm_num

theorem Vector3.ext_xyz (a b : Vector3) (hx : a.x = b.x) (hy : a.y = b.y)
    (hz : a.z = b.z) : a = b := by
  cases a; cases b; simp_all

theorem Vector3.add_x (a b : Vector3) : (a.add b).x = a.x + b.x := rfl

theorem Vector3.add_y (a b : Vector3) : (a.add b).y = a.y + b.y := rfl

theorem Vector3.add_z (a b : Vector3) : (a.add b).z = a.z + b.z := rfl

theorem Vector3.multiply_x (a : Vector3) (s : ℝ) : (a.multiply s).x = a.x * s := rfl

theorem Vector3.multiply_y (a : Vector3) (s : ℝ) : (a.multiply s).y = a.y * s := rfl

theorem Vector3.multiply_z (a : Vector3) (s : ℝ) : (a.multiply s).z = a.z * s := rfl

/-- C3: the shadow test of `Scene.trace` declares a point in shadow iff
some object of the (full) list returns a distance strictly below the
point-to-light distance — the early `break` of the source loop changes
nothing — and the per-light step builds the shadow ray from
`point + normal·0.001` toward the light, adds the diffuse term
`hitObject.color · (max 0 (normal·lightDir) · intensity)` only when not
in shadow, and always adds the ambient term. -/
theorem C3_shadow_ray_and_diffuse (objs : List SceneObject)
    (hitObj : SceneObject) (point normal : Vector3) (light : Light)
    (color : Vector3) :
    (∀ (sr : Ray) (d : ℝ),
      (isInShadow objs sr d = true ↔
        ∃ o ∈ objs, ∃ t, o.intersect sr = some t ∧ t < d)) ∧
    shadeLights objs hitObj point normal [light] color =
      (if isInShadow objs
          (mkRay (point.add (normal.multiply 0.001))
            ((light.position.subtract point).normalize))
          (light.position.distanceTo point)
        then color
        else color.add (hitObj.color.multiply
          (max 0 (normal.dot ((light.position.subtract point).normalize)) *
            light.intensity))).add (hitObj.color.multiply 0.2) := by
  constructor
  · intro sr d
    induction objs with
    | nil => simp [isInShadow]
    | cons o1 rest ih =>
      cases h1 : o1.intersect sr with
      | none =>
        simp only [isInShadow, h1]
        rw [ih]
        constructor
        · rintro ⟨o, ho, t, hot, htd⟩
          exact ⟨o, List.mem_cons_of_mem _ ho, t, hot, htd⟩
        · rintro ⟨o, ho, t, hot, htd⟩
          rcases List.mem_cons.mp ho with rfl | ho
          · rw [h1] at hot; exact absurd hot (by simp)
          · exact ⟨o, ho, t, hot, htd⟩
      | some t1 =>
        simp only [isInShadow, h1]
        by_cases hlt : t1 < d
        · rw [if_pos hlt]
          simp only [true_iff]
          exact ⟨o1, List.mem_cons_self _ _, t1, h1, hlt⟩
        · rw [if_neg hlt]
          rw [ih]
          constructor
          · rintro ⟨o, ho, t, hot, htd⟩
            exact ⟨o, List.mem_cons_of_mem _ ho, t, hot, htd⟩
          · rintro ⟨o, ho, t, hot, htd⟩
            rcases List.mem_cons.mp ho with rfl | ho
            · rw [h1] at hot
              injection hot with hot
              rw [← hot] at htd
              exact absurd htd hlt
            · exact ⟨o, ho, t, hot, htd⟩
  · simp only [shadeLights]

/-- Witness for C3: concrete instance — a unit sphere at the origin sits
between the point `(0,0,3)` (shadow-ray origin side) and a light beyond
it; the shadow characterization and the per-light equation hold there. -/
theorem C3_shadow_ray_and_diffuse_witness :
    (isInShadow [SceneObject.sphere (Sphere.mk ⟨0, 0, 0⟩ 1 ⟨1, 0, 0⟩)]
        (Ray.mk ⟨0, 0, 3⟩ ⟨0, 0, -1⟩) 10 = true ↔
      ∃ o ∈ [SceneObject.sphere (Sphere.mk ⟨0, 0, 0⟩ 1 ⟨1, 0, 0⟩)], ∃ t,
        o.intersect (Ray.mk ⟨0, 0, 3⟩ ⟨0, 0, -1⟩) = some t ∧ t < 10) ∧
    shadeLights [SceneObject.sphere (Sphere.mk ⟨0, 0, 0⟩ 1 ⟨1, 0, 0⟩)]
      (SceneObject.sphere (Sphere.mk ⟨0, 0, 0⟩ 1 ⟨1, 0, 0⟩))
      ⟨0, 0, 3⟩ ⟨0, 0, 1⟩ [Light.mk ⟨2, 5, 2⟩ 1.5] ⟨0, 0, 0⟩ =
      (if isInShadow [SceneObject.sphere (Sphere.mk ⟨0, 0, 0⟩ 1 ⟨1, 0, 0⟩)]
          (mkRay ((Vector3.mk 0 0 3).add ((Vector3.mk 0 0 1).multiply 0.001))
            (((Vector3.mk 2 5 2).subtract ⟨0, 0, 3⟩).normalize))
          ((Vector3.mk 2 5 2).distanceTo ⟨0, 0, 3⟩)
        then (Vector3.mk 0 0 0)
        else (Vector3.mk 0 0 0).add
          ((SceneObject.sphere (Sphere.mk ⟨0, 0, 0⟩ 1 ⟨1, 0, 0⟩)).color.multiply
            (max 0 ((Vector3.mk 0 0 1).dot
              (((Vector3.mk 2 5 2).subtract ⟨0, 0, 3⟩).normalize)) *
              1.5))).add
        ((SceneObject.sphere (Sphere.mk ⟨0, 0, 0⟩ 1 ⟨1, 0, 0⟩)).color.multiply
          0.2) :=
  ⟨(C3_shadow_ray_and_diffuse [SceneObject.sphere (Sphere.mk ⟨0, 0, 0⟩ 1 ⟨1, 0, 0⟩)]
      (SceneObject.sphere (Sphere.mk ⟨0, 0, 0⟩ 1 ⟨1, 0, 0⟩))
      ⟨0, 0, 3⟩ ⟨0, 0, 1⟩ (Light.mk ⟨2, 5, 2⟩ 1.5) ⟨0, 0, 0⟩).1
      (Ray.mk ⟨0, 0, 3⟩ ⟨0, 0, -1⟩) 10,
    (C3_shadow_ray_and_diffuse [SceneObject.sphere (Sphere.mk ⟨0, 0, 0⟩ 1 ⟨1, 0, 0⟩)]
      (SceneObject.sphere (Sphere.mk ⟨0, 0, 0⟩ 1 ⟨1, 0, 0⟩))
      ⟨0, 0, 3⟩ ⟨0, 0, 1⟩ (Light.mk ⟨2, 5, 2⟩ 1.5) ⟨0, 0, 0⟩).2⟩

/-- The diffuse contribution of a single light: zero when the point is in
shadow from that light, otherwise the source's diffuse term. -/
noncomputable def diffuseContrib (objs : List SceneObject) (hitObj : SceneObject)
    (point normal : Vector3) (light : Light) : Vector3 :=
  let lightDirection := (light.position.subtract point).normalize
  let shadowRay := mkRay (point.add (normal.multiply 0.001)) lightDirection
  if isInShadow objs shadowRay (light.position.distanceTo point) then ⟨0, 0, 0⟩
  else hitObj.color.multiply (max 0 (normal.dot lightDirection) * light.intensity)

/-- Sum of the per-light diffuse contributions. -/
noncomputable def diffuseSum (objs : List SceneObject) (hitObj : SceneObject)
    (point normal : Vector3) : List Light → Vector3
  | [] => ⟨0, 0, 0⟩
  | light :: rest =>
    (diffuseContrib objs hitObj point normal light).add
      (diffuseSum objs hitObj point normal rest)

/-- C4: the shading loop accumulates, on top of its starting color, the
per-light diffuse contributions plus the ambient term
`hitObject.color · 0.2` once per light regardless of shadow state, so the
total ambient accumulated before clamping is
`lights.length · 0.2 · hitObject.color`. -/
theorem C4_ambient_scales_with_light_count (objs : List SceneObject)
    (hitObj : SceneObject) (point normal : Vector3) (lights : List Light)
    (c0 : Vector3) :
    shadeLights objs hitObj point normal lights c0 =
      (c0.add (diffuseSum objs hitObj point normal lights)).add
        (hitObj.color.multiply ((lights.length : ℝ) * 0.2)) := by
  induction lights generalizing c0 with
  | nil =>
    apply Vector3.ext_xyz <;>
      simp [shadeLights, diffuseSum, Vector3.add_x, Vector3.add_y,
        Vector3.add_z, Vector3.multiply_x, Vector3.multiply_y,
        Vector3.multiply_z]
  | cons light rest ih =>
    simp only [shadeLights, diffuseSum]
    rw [ih]
    by_cases hs : isInShadow objs
        (mkRay (point.add (normal.multiply 0.001))
          ((light.position.subtract point).normalize))
        (light.position.distanceTo point)
    · simp only [diffuseContrib, if_pos hs]
      apply Vector3.ext_xyz <;>
        · simp only [Vector3.add_x, Vector3.add_y, Vector3.add_z,
            Vector3.multiply_x, Vector3.multiply_y, Vector3.multiply_z,
            List.length_cons]
          push_cast
          ring
    · simp only [diffuseContrib, if_neg hs]
      apply Vector3.ext_xyz <;>
        · simp only [Vector3.add_x, Vector3.add_y, Vector3.add_z,
            Vector3.multiply_x, Vector3.multiply_y, Vector3.multiply_z,
            List.length_cons]
          push_cast
          ring

theorem pixelBytes_length (scene : Scene) (W H x y : ℕ) :
    (pixelBytes scene W H x y).length = 4 := rfl

theorem writeBytes_length (vs : List ℤ) :
    ∀ (buf : List ℤ) (i : ℕ), (writeBytes buf i vs).length = buf.length := by
  induction vs with
  | nil => intro buf i; rfl
  | cons v vs ih =>
    intro buf i
    simp only [writeBytes]
    rw [ih, List.length_set]

/-- Consecutive stores starting at `i` splice the value run into the
buffer, leaving the prefix and the suffix untouched. -/
theorem writeBytes_eq (vs : List ℤ) :
    ∀ (buf : List ℤ) (i : ℕ), i + vs.length ≤ buf.length →
      writeBytes buf i vs =
        buf.take i ++ vs.map byteClamp ++ buf.drop (i + vs.length) := by
  induction vs with
  | nil =>
    intro buf i h
    simp only [writeBytes, List.length_nil, Nat.add_zero, List.map_nil,
      List.append_nil]
    rw [List.take_append_drop]
  | cons v vs ih =>
    intro buf i h
    have hi : i < buf.length := by
      have hl : (v :: vs).length = vs.length + 1 := List.length_cons v vs
      omega
    simp only [writeBytes]
    rw [ih (buf.set i (byteClamp v)) (i + 1)
      (by rw [List.length_set]; simp only [List.length_cons] at h; omega)]
    rw [List.set_eq_take_cons_drop (byteClamp v) hi]
    have hsplit : buf.take i ++ byteClamp v :: buf.drop (i + 1) =
        (buf.take i ++ [byteClamp v]) ++ buf.drop (i + 1) := by
      simp
    rw [hsplit]
    have hlenA : (buf.take i ++ [byteClamp v]).length = i + 1 := by
      simp [List.length_take, Nat.min_eq_left hi.le]
    rw [List.take_left' hlenA]
    rw [show i + 1 + vs.length = (buf.take i ++ [byteClamp v]).length + vs.length by
      rw [hlenA]]
    rw [List.drop_append vs.length, List.drop_drop]
    simp only [List.length_cons]
    have hidx : i + 1 + vs.length = i + (vs.length + 1) := by omega
    rw [hidx]
    simp [List.append_assoc]

/-- The inner x-loop writes exactly the row's pixel bytes, contiguously,
leaving the rest of the buffer unchanged. -/
theorem renderRow_eq (scene : Scene) (W H y : ℕ) :
    ∀ (n x : ℕ) (buf : List ℤ), (y * W + x) * 4 + 4 * n ≤ buf.length →
      renderRow scene W H y x n buf =
        buf.take ((y * W + x) * 4) ++
          ((List.range' x n).flatMap fun e =>
            (pixelBytes scene W H e y).map byteClamp) ++
          buf.drop ((y * W + x) * 4 + 4 * n) := by
  intro n
  induction n with
  | zero =>
    intro x buf h
    simp only [renderRow, List.range', List.flatMap_nil, List.append_nil,
      Nat.mul_zero, Nat.add_zero]
    rw [List.take_append_drop]
  | succ n ih =>
    intro x buf h
    simp only [renderRow]
    have hp4 : (y * W + x) * 4 + 4 ≤ buf.length := by
      have e : (y * W + x) * 4 + 4 * (n + 1) =
          (y * W + x) * 4 + 4 + 4 * n := by ring
      rw [e] at h
      omega
    have hcond : (y * W + (x + 1)) * 4 + 4 * n ≤
        (writeBytes buf ((y * W + x) * 4) (pixelBytes scene W H x y)).length := by
      rw [writeBytes_length]
      have e : (y * W + (x + 1)) * 4 + 4 * n =
          (y * W + x) * 4 + 4 * (n + 1) := by ring
      rw [e]
      exact h
    rw [ih (x + 1) _ hcond]
    rw [writeBytes_eq _ buf ((y * W + x) * 4)
      (by rw [pixelBytes_length]; exact hp4)]
    rw [pixelBytes_length]
    have hlenA : (buf.take ((y * W + x) * 4) ++
        (pixelBytes scene W H x y).map byteClamp).length =
        (y * W + (x + 1)) * 4 := by
      rw [List.length_append, List.length_take, List.length_map,
        pixelBytes_length,
        Nat.min_eq_left (by omega : (y * W + x) * 4 ≤ buf.length)]
      ring
    have hassoc : buf.take ((y * W + x) * 4) ++
        (pixelBytes scene W H x y).map byteClamp ++
        buf.drop ((y * W + x) * 4 + 4) =
        (buf.take ((y * W + x) * 4) ++
          (pixelBytes scene W H x y).map byteClamp) ++
        buf.drop ((y * W + x) * 4 + 4) := rfl
    rw [hassoc, List.take_left' hlenA]
    rw [show (y * W + (x + 1)) * 4 + 4 * n =
        (buf.take ((y * W + x) * 4) ++
          (pixelBytes scene W H x y).map byteClamp).length + 4 * n by
      rw [hlenA]]
    rw [List.drop_append (4 * n), List.drop_drop]
    rw [List.range'_succ, List.flatMap_cons]
    rw [show (y * W + x) * 4 + 4 + 4 * n = (y * W + x) * 4 + 4 * (n + 1) by ring]
    simp [List.append_assoc]

theorem renderRow_length (scene : Scene) (W H y : ℕ) :
    ∀ (n x : ℕ) (buf : List ℤ),
      (renderRow scene W H y x n buf).length = buf.length := by
  intro n
  induction n with
  | zero => intro x buf; rfl
  | succ n ih =>
    intro x buf
    simp only [renderRow]
    rw [ih, writeBytes_length]

theorem flatMap_length_uniform {α : Type} (f : α → List ℤ) (L : ℕ) :
    ∀ (l : List α), (∀ a ∈ l, (f a).length = L) →
      (l.flatMap f).length = l.length * L := by
  intro l
  induction l with
  | nil => intro _; simp
  | cons a l ih =>
    intro h
    simp only [List.flatMap_cons, List.length_append, List.length_cons]
    rw [h a (List.mem_cons_self _ _), ih fun b hb => h b (List.mem_cons_of_mem _ hb)]
    ring

/-- The outer y-loop writes the rows contiguously in row-major order. -/
theorem renderRows_eq (scene : Scene) (W H : ℕ) :
    ∀ (n y : ℕ) (buf : List ℤ), y * (W * 4) + n * (W * 4) ≤ buf.length →
      renderRows scene W H y n buf =
        buf.take (y * (W * 4)) ++
          ((List.range' y n).flatMap fun e =>
            (List.range W).flatMap fun x =>
              (pixelBytes scene W H x e).map byteClamp) ++
          buf.drop (y * (W * 4) + n * (W * 4)) := by
  intro n
  induction n with
  | zero =>
    intro y buf h
    simp only [renderRows, List.range', List.flatMap_nil, List.append_nil,
      Nat.zero_mul, Nat.add_zero]
    rw [List.take_append_drop]
  | succ n ih =>
    intro y buf h
    simp only [renderRows]
    have hrow : (y * W + 0) * 4 + 4 * W ≤ buf.length := by
      have e : (y * W + 0) * 4 + 4 * W = y * (W * 4) + 1 * (W * 4) := by ring
      rw [e]
      have e2 : y * (W * 4) + (n + 1) * (W * 4) =
          y * (W * 4) + 1 * (W * 4) + n * (W * 4) := by ring
      rw [e2] at h
      omega
    have hcond : (y + 1) * (W * 4) + n * (W * 4) ≤
        (renderRow scene W H y 0 W buf).length := by
      rw [renderRow_length]
      have e : (y + 1) * (W * 4) + n * (W * 4) =
          y * (W * 4) + (n + 1) * (W * 4) := by ring
      rw [e]
      exact h
    rw [ih (y + 1) _ hcond, renderRow_eq scene W H y W 0 buf hrow]
    have hR : ((List.range' 0 W).flatMap fun e =>
        (pixelBytes scene W H e y).map byteClamp).length = W * 4 := by
      rw [flatMap_length_uniform _ 4 _ fun a _ => by
          rw [List.length_map, pixelBytes_length],
        List.length_range']
    have hlenA : (buf.take ((y * W + 0) * 4) ++
        ((List.range' 0 W).flatMap fun e =>
          (pixelBytes scene W H e y).map byteClamp)).length =
        (y + 1) * (W * 4) := by
      rw [List.length_append, List.length_take, hR,
        Nat.min_eq_left (by
          have e : (y * W + 0) * 4 + 4 * W = y * (W * 4) + 1 * (W * 4) := by
            ring
          omega)]
      ring
    have hassoc : buf.take ((y * W + 0) * 4) ++
        ((List.range' 0 W).flatMap fun e =>
          (pixelBytes scene W H e y).map byteClamp) ++
        buf.drop ((y * W + 0) * 4 + 4 * W) =
        (buf.take ((y * W + 0) * 4) ++
          ((List.range' 0 W).flatMap fun e =>
            (pixelBytes scene W H e y).map byteClamp)) ++
        buf.drop ((y * W + 0) * 4 + 4 * W) := rfl
    rw [hassoc, List.take_left' hlenA]
    rw [show (y + 1) * (W * 4) + n * (W * 4) =
        (buf.take ((y * W + 0) * 4) ++
          ((List.range' 0 W).flatMap fun e =>
            (pixelBytes scene W H e y).map byteClamp)).length +
          n * (W * 4) by rw [hlenA]]
    rw [List.drop_append (n * (W * 4)), List.drop_drop]
    rw [List.range'_succ, List.flatMap_cons]
    rw [show (y * W + 0) * 4 = y * (W * 4) by ring]
    rw [show y * (W * 4) + 4 * W + n * (W * 4) =
        y * (W * 4) + (n + 1) * (W * 4) by ring]
    rw [show (List.range' 0 W).flatMap
          (fun e => (pixelBytes scene W H e y).map byteClamp) =
        (List.range W).flatMap fun x => (pixelBytes scene W H x y).map byteClamp by
      rw [List.range_eq_range']]
    simp [List.append_assoc]

theorem renderFlat_length (scene : Scene) (W H : ℕ) :
    (renderFlat scene W H).length = W * H * 4 := by
  unfold renderFlat
  rw [flatMap_length_uniform _ (W * 4) _ fun a _ => by
    rw [flatMap_length_uniform _ 4 _ fun b _ => by
        rw [List.length_map, pixelBytes_length],
      List.length_range]]
  rw [List.length_range]
  ring

/-- On a correctly sized buffer (the persistent `imageData` always has
length `W·H·4`), the write loops produce exactly the flat row-major pixel
byte list, independent of the buffer's prior contents. -/
theorem render_eq_flat (scene : Scene) (W H : ℕ) (buf : List ℤ)
    (h : buf.length = W * H * 4) :
    render scene W H buf = renderFlat scene W H := by
  unfold render renderFlat
  rw [renderRows_eq scene W H H 0 buf (by
    rw [h]
    have e : 0 * (W * 4) + H * (W * 4) = W * H * 4 := by ring
    omega)]
  simp only [Nat.zero_mul, List.take_zero, List.nil_append, Nat.zero_add]
  rw [List.drop_eq_nil_of_le (by
    rw [h]
    have e : H * (W * 4) = W * H * 4 := by ring
    omega)]
  simp [List.range_eq_range']

/-- Indexing a flat-mapped list of uniform-length blocks: position
`i·L + k` reads entry `k` of block `i`. -/
theorem flatMap_getElem_uniform {α : Type} (f : α → List ℤ) (L : ℕ) :
    ∀ (l : List α) (i k : ℕ) (hi : i < l.length), k < L →
      (∀ a ∈ l, (f a).length = L) →
      (l.flatMap f)[i * L + k]? = (f (l.get ⟨i, hi⟩))[k]? := by
  intro l
  induction l with
  | nil => intro i k hi; exact absurd hi (by simp)
  | cons a l ih =>
    intro i k hi hk hlen
    cases i with
    | zero =>
      simp only [List.flatMap_cons, Nat.zero_mul, Nat.zero_add]
      rw [List.getElem?_append_left
        (by rw [hlen a (List.mem_cons_self _ _)]; exact hk)]
      rfl
    | succ i =>
      simp only [List.flatMap_cons]
      have hidx : (i + 1) * L + k = (f a).length + (i * L + k) := by
        rw [hlen a (List.mem_cons_self _ _)]
        ring
      rw [hidx, List.getElem?_append_right
        (by omega : (f a).length ≤ (f a).length + (i * L + k))]
      have hsub : (f a).length + (i * L + k) - (f a).length = i * L + k := by
        omega
      rw [hsub]
      exact ih i k (by simpa using Nat.lt_of_succ_lt_succ (by simpa using hi))
        hk fun b hb => hlen b (List.mem_cons_of_mem _ hb)

theorem getElem?_list4 (a b c d : ℤ) :
    ([a, b, c, d][0]? = some a) ∧ ([a, b, c, d][1]? = some b) ∧
    ([a, b, c, d][2]? = some c) ∧ ([a, b, c, d][3]? = some d) :=
  ⟨rfl, rfl, rfl, rfl⟩

/-- Byte `k` of pixel `(x,y)` in the rendered buffer is entry `k` of that
pixel's four computed bytes, saturated by the `Uint8ClampedArray` store. -/
theorem render_getElem_pixel (scene : Scene) (W H x y k : ℕ) (buf : List ℤ)
    (hx : x < W) (hy : y < H) (hk : k < 4) (hlen : buf.length = W * H * 4) :
    (render scene W H buf)[(y * W + x) * 4 + k]? =
      ((pixelBytes scene W H x y).map byteClamp)[k]? := by
  rw [render_eq_flat scene W H buf hlen]
  unfold renderFlat
  have hrowlen : ∀ a ∈ List.range H,
      ((List.range W).flatMap fun e =>
        (pixelBytes scene W H e a).map byteClamp).length = W * 4 := fun a _ => by
    rw [flatMap_length_uniform _ 4 _ fun b _ => by
        rw [List.length_map, pixelBytes_length],
      List.length_range]
  have hyH : y < (List.range H).length := by simpa using hy
  have houter := flatMap_getElem_uniform
    (fun e => (List.range W).flatMap fun e2 =>
      (pixelBytes scene W H e2 e).map byteClamp)
    (W * 4) (List.range H) y (x * 4 + k) hyH (by omega) hrowlen
  have hidx : (y * W + x) * 4 + k = y * (W * 4) + (x * 4 + k) := by ring
  rw [hidx, houter]
  have hgety : (List.range H).get ⟨y, hyH⟩ = y := by
    simp [List.getElem_range]
  rw [hgety]
  have hxW : x < (List.range W).length := by simpa using hx
  have hinner := flatMap_getElem_uniform
    (fun e2 => (pixelBytes scene W H e2 y).map byteClamp) 4 (List.range W) x k
    hxW hk fun b _ => by rw [List.length_map, pixelBytes_length]
  rw [hinner]
  have hgetx : (List.range W).get ⟨x, hxW⟩ = x := by
    simp [List.getElem_range]
  rw [hgetx]

/-- The store saturation is the identity on the byte of an in-range
channel: for `0 ≤ c ≤ 1`, `⌊c·255⌋` already lies in `[0, 255]`. -/
theorem byteClamp_floor_of_unit (c : ℝ) (h0 : 0 ≤ c) (h1 : c ≤ 1) :
    byteClamp ⌊c * 255⌋ = ⌊c * 255⌋ := by
  unfold byteClamp
  have hge : (0 : ℤ) ≤ ⌊c * 255⌋ := Int.floor_nonneg.mpr (by positivity)
  have hle : ⌊c * 255⌋ ≤ 255 := by
    have hc : c * 255 ≤ 255 := by nlinarith
    calc ⌊c * 255⌋ ≤ ⌊(255 : ℝ)⌋ := Int.floor_le_floor hc
    _ = 255 := by norm_num
  rw [max_eq_right hge, min_eq_right hle]

/-- C7 (amended): each pixel `(x,y)` of a `W×H` render is produced by one
ray from the fixed camera position with direction `(px, py, −1)`
normalized, `px = (x/W)·2 − 1`, `py = −(y/H)·2 + 1`; each traced channel
is converted to `⌊channel·255⌋` and stored at byte offset `(y·W + x)·4`
of the row-major RGBA buffer through the `Uint8ClampedArray` saturation
`min(255, max(0, ·))`, which is the identity — so the stored byte is
exactly `⌊channel·255⌋` — whenever the channel lies in `[0,1]`; alpha is
always `255`. -/
theorem C7_render_pixel_layout (scene : Scene) (W H x y : ℕ) (buf : List ℤ)
    (color : Vector3)
    (hcolor : color = scene.trace (mkRay cameraPosition
      ((Vector3.mk (((x : ℝ) / (W : ℝ)) * 2 - 1)
        (-((y : ℝ) / (H : ℝ)) * 2 + 1) (-1)).normalize)) 0 3)
    (hx : x < W) (hy : y < H) (hlen : buf.length = W * H * 4) :
    (render scene W H buf)[(y * W + x) * 4]? =
      some (byteClamp ⌊color.x * 255⌋) ∧
    (render scene W H buf)[(y * W + x) * 4 + 1]? =
      some (byteClamp ⌊color.y * 255⌋) ∧
    (render scene W H buf)[(y * W + x) * 4 + 2]? =
      some (byteClamp ⌊color.z * 255⌋) ∧
    (render scene W H buf)[(y * W + x) * 4 + 3]? = some 255 ∧
    (0 ≤ color.x → color.x ≤ 1 →
      (render scene W H buf)[(y * W + x) * 4]? = some ⌊color.x * 255⌋) ∧
    (0 ≤ color.y → color.y ≤ 1 →
      (render scene W H buf)[(y * W + x) * 4 + 1]? = some ⌊color.y * 255⌋) ∧
    (0 ≤ color.z → color.z ≤ 1 →
      (render scene W H buf)[(y * W + x) * 4 + 2]? = some ⌊color.z * 255⌋) := by
  have h0 := render_getElem_pixel scene W H x y 0 buf hx hy (by omega) hlen
  rw [Nat.add_zero] at h0
  have h1 := render_getElem_pixel scene W H x y 1 buf hx hy (by omega) hlen
  have h2 := render_getElem_pixel scene W H x y 2 buf hx hy (by omega) hlen
  have h3 := render_getElem_pixel scene W H x y 3 buf hx hy (by omega) hlen
  simp only [pixelBytes, pixelColor, List.map_cons, List.map_nil] at h0 h1 h2 h3
  rw [(getElem?_list4 _ _ _ _).1] at h0
  rw [(getElem?_list4 _ _ _ _).2.1] at h1
  rw [(getElem?_list4 _ _ _ _).2.2.1] at h2
  rw [(getElem?_list4 _ _ _ _).2.2.2] at h3
  rw [← hcolor] at h0 h1 h2
  have h3' : (render scene W H buf)[(y * W + x) * 4 + 3]? = some 255 := by
    rw [h3]
    norm_num [byteClamp]
  refine ⟨h0, h1, h2, h3', fun ha hb => ?_, fun ha hb => ?_, fun ha hb => ?_⟩
  · rw [h0, byteClamp_floor_of_unit color.x ha hb]
  · rw [h1, byteClamp_floor_of_unit color.y ha hb]
  · rw [h2, byteClamp_floor_of_unit color.z ha hb]

/-- Counterexample to C7 as frozen: for the empty scene with the
out-of-range background color `(2,−1,3)`, the traced color at pixel
`(0,0)` of a 1×1 render has `x`-channel `2`, whose raw conversion is
`⌊2·255⌋ = 510`; but the byte the render stores at offset 0 is the
saturated `255`, not `510` — the buffer does not hold
`⌊channel·255⌋`. -/
theorem C7_render_pixel_layout_counterexample :
    (Vector3.mk 2 (-1) 3 =
      (Scene.mk [] [] ⟨2, -1, 3⟩).trace (mkRay cameraPosition
        ((Vector3.mk ((((0 : ℕ) : ℝ) / ((1 : ℕ) : ℝ)) * 2 - 1)
          (-(((0 : ℕ) : ℝ) / ((1 : ℕ) : ℝ)) * 2 + 1) (-1)).normalize)) 0 3) ∧
    (render (Scene.mk [] [] ⟨2, -1, 3⟩) 1 1 [0, 0, 0, 0])[(0 * 1 + 0) * 4]? =
      some 255 ∧
    ⌊(2 : ℝ) * 255⌋ = 510 ∧
    (render (Scene.mk [] [] ⟨2, -1, 3⟩) 1 1 [0, 0, 0, 0])[(0 * 1 + 0) * 4]? ≠
      some ⌊(2 : ℝ) * 255⌋ := by
  have hcolor : Vector3.mk 2 (-1) 3 =
      (Scene.mk [] [] ⟨2, -1, 3⟩).trace (mkRay cameraPosition
        ((Vector3.mk ((((0 : ℕ) : ℝ) / ((1 : ℕ) : ℝ)) * 2 - 1)
          (-(((0 : ℕ) : ℝ) / ((1 : ℕ) : ℝ)) * 2 + 1) (-1)).normalize)) 0 3 := by
    simp [Scene.trace, findClosest]
  have hfloor : ⌊(2 : ℝ) * 255⌋ = (510 : ℤ) := by norm_num
  have h0 := render_getElem_pixel (Scene.mk [] [] ⟨2, -1, 3⟩) 1 1 0 0 0
    [0, 0, 0, 0] (by omega) (by omega) (by omega) rfl
  rw [Nat.add_zero] at h0
  simp only [pixelBytes, pixelColor, List.map_cons, List.map_nil] at h0
  rw [(getElem?_list4 _ _ _ _).1] at h0
  rw [← hcolor] at h0
  have h0' : (render (Scene.mk [] [] ⟨2, -1, 3⟩) 1 1 [0, 0, 0, 0])[(0 * 1 + 0) * 4]? = some 255 := by
    rw [h0]
    norm_num [byteClamp]
  refine ⟨hcolor, h0', hfloor, ?_⟩
  rw [h0', hfloor]
  intro hcontra
  injection hcontra with hcontra
  exact absurd hcontra (by norm_num)

/-- C9: rendering is idempotent over the persistent buffer — with no
intervening scene or light mutation, a second `render` pass over the
buffer produced by the first yields a byte-identical buffer (both equal
the flat row-major pixel list, independent of prior buffer contents). -/
theorem C9_render_idempotent (scene : Scene) (W H : ℕ) (buf : List ℤ)
    (h : buf.length = W * H * 4) :
    render scene W H (render scene W H buf) = render scene W H buf := by
  rw [render_eq_flat scene W H buf h,
    render_eq_flat scene W H _ (renderFlat_length scene W H)]

/-- Witness for C9: a 1×1 render over the 4-byte buffer, twice. -/
theorem C9_render_idempotent_witness :
    ([0, 0, 0, 0] : List ℤ).length = 1 * 1 * 4 ∧
    render (Scene.mk [] [] ⟨0.1, 0.1, 0.2⟩) 1 1
        (render (Scene.mk [] [] ⟨0.1, 0.1, 0.2⟩) 1 1 [0, 0, 0, 0]) =
      render (Scene.mk [] [] ⟨0.1, 0.1, 0.2⟩) 1 1 [0, 0, 0, 0] :=
  ⟨rfl, C9_render_idempotent (Scene.mk [] [] ⟨0.1, 0.1, 0.2⟩) 1 1 [0, 0, 0, 0] rfl⟩

/-- Witness for C7 (amended): a 1×1 render of an empty scene with the
in-range background `(0.1, 0.1, 0.2)` stores exactly the raw bytes
`⌊0.1·255⌋, ⌊0.1·255⌋, ⌊0.2·255⌋, 255` at offset 0 — the saturation is
the identity there. -/
theorem C7_render_pixel_layout_witness :
    (Vector3.mk 0.1 0.1 0.2 =
      (Scene.mk [] [] ⟨0.1, 0.1, 0.2⟩).trace (mkRay cameraPosition
        ((Vector3.mk ((((0 : ℕ) : ℝ) / ((1 : ℕ) : ℝ)) * 2 - 1)
          (-(((0 : ℕ) : ℝ) / ((1 : ℕ) : ℝ)) * 2 + 1) (-1)).normalize)) 0 3) ∧
    (0 : ℕ) < 1 ∧ ([0, 0, 0, 0] : List ℤ).length = 1 * 1 * 4 ∧
    ((0 : ℝ) ≤ 0.1 ∧ (0.1 : ℝ) ≤ 1 ∧ (0 : ℝ) ≤ 0.2 ∧ (0.2 : ℝ) ≤ 1) ∧
    ((render (Scene.mk [] [] ⟨0.1, 0.1, 0.2⟩) 1 1 [0, 0, 0, 0])[(0 * 1 + 0) * 4]? =
      some ⌊(0.1 : ℝ) * 255⌋ ∧
    (render (Scene.mk [] [] ⟨0.1, 0.1, 0.2⟩) 1 1 [0, 0, 0, 0])[(0 * 1 + 0) * 4 + 1]? =
      some ⌊(0.1 : ℝ) * 255⌋ ∧
    (render (Scene.mk [] [] ⟨0.1, 0.1, 0.2⟩) 1 1 [0, 0, 0, 0])[(0 * 1 + 0) * 4 + 2]? =
      some ⌊(0.2 : ℝ) * 255⌋ ∧
    (render (Scene.mk [] [] ⟨0.1, 0.1, 0.2⟩) 1 1 [0, 0, 0, 0])[(0 * 1 + 0) * 4 + 3]? =
      some 255) := by
  have hcolor : Vector3.mk 0.1 0.1 0.2 =
      (Scene.mk [] [] ⟨0.1, 0.1, 0.2⟩).trace (mkRay cameraPosition
        ((Vector3.mk ((((0 : ℕ) : ℝ) / ((1 : ℕ) : ℝ)) * 2 - 1)
          (-(((0 : ℕ) : ℝ) / ((1 : ℕ) : ℝ)) * 2 + 1) (-1)).normalize)) 0 3 := by
    simp [Scene.trace, findClosest]
  have happ := C7_render_pixel_layout (Scene.mk [] [] ⟨0.1, 0.1, 0.2⟩) 1 1 0 0
    [0, 0, 0, 0] (Vector3.mk 0.1 0.1 0.2) hcolor (by omega) (by omega) rfl
  exact ⟨hcolor, by omega, rfl,
    ⟨by norm_num, by norm_num, by norm_num, by norm_num⟩,
    happ.2.2.2.2.1 (by norm_num) (by norm_num),
    happ.2.2.2.2.2.1 (by norm_num) (by norm_num),
    happ.2.2.2.2.2.2 (by norm_num) (by norm_num),
    happ.2.2.2.1⟩

end Diffuse
